import Mathlib

/-!
Shallow embedding of src/main.py (class SlackNotifier).

The embedding covers the parts of the program the claims are about:
the run-state merge engine (_update_phase_data, lines 219-256), the
storage cleanup pass (_cleanup_and_find_pipeline, lines 130-177), the
outward-message publish step at the end of update (lines 333-348), and
the error paths of _slack_request (lines 92-107) and
_get_all_storage_messages (lines 109-128).

Timestamps (Python time.time and the float value of a Slack message ts)
are modelled as integers: the code only compares them, so any linearly
ordered numeric type is faithful.  Python dicts for phases and run
records are modelled as structures whose fields are the keys this code
reads and writes; the defensive branch for a phase record without a
steps key (line 235) is the only key-absence the code handles, and every
phase this code creates carries a steps list, so steps is a total field.
-/

namespace CCSlack

/-- The color table built in SlackNotifier init, src/main.py lines 34-40. -/
def colors : List (String × String) :=
  [("start", "#2196F3"), ("progress", "#FF9800"), ("success", "#4CAF50"),
   ("failure", "#F44336"), ("skipped", "#9E9E9E")]

/-- Association-list lookup, modelling Python dict access on the color table. -/
def lookupColor : List (String × String) → String → Option String
  | [], _ => none
  | (k, v) :: rest, key => if k = key then some v else lookupColor rest key

/-- Line 222: self.colors.get(color_key, self.colors["progress"]). -/
def colorsGet (k : String) : String :=
  (lookupColor colors k).getD ((lookupColor colors "progress").getD "")

/-- Line 230: self.colors["failure"], the color the failure lock tests against. -/
def failureColor : String := (lookupColor colors "failure").getD ""

/-- One phase record inside the stored run data (the dicts built at lines 246-254). -/
structure Phase where
  name : String
  status : String
  color : String
  is_final : Bool
  steps : List String
  started_at : Int
  last_updated : Int
deriving DecidableEq, Repr

/-- Lines 230-241: the body of the loop of _update_phase_data once the phase
with the matching name has been found.  If the stored color is not the
failure color the status, color and is_final fields are overwritten; the
step is appended only when it is not already a member of the steps list;
last_updated is always refreshed. -/
def applyToPhase (status color : String) (is_final : Bool) (step : String)
    (now : Int) (p : Phase) : Phase :=
  let p1 := if p.color ≠ failureColor then
      { p with status := status, color := color, is_final := is_final }
    else p
  let p2 := if step ∈ p1.steps then p1 else { p1 with steps := p1.steps ++ [step] }
  { p2 with last_updated := now }

/-- Lines 245-254: the fresh phase dict appended when the phase name was not found. -/
def newPhase (phase status color : String) (is_final : Bool) (step : String)
    (now : Int) : Phase :=
  Phase.mk phase status color is_final [step] now now

/-- Lines 225-254: the loop of _update_phase_data over data["phases"].  The
first phase whose name matches is updated and the loop breaks; when no
phase matches, a fresh phase is appended at the end of the list. -/
def updatePhases (phase status color : String) (is_final : Bool) (step : String)
    (now : Int) : List Phase → List Phase
  | [] => [newPhase phase status color is_final step now]
  | p :: ps =>
    if p.name = phase then applyToPhase status color is_final step now p :: ps
    else p :: updatePhases phase status color is_final step now ps

/-- The run record built at lines 190-196 and merged by _update_phase_data. -/
structure RunData where
  workflow_id : String
  phases : List Phase
  message_ts : Option String
  created_at : Int
deriving DecidableEq, Repr

/-- Lines 219-256: _update_phase_data(data, phase, status, step, color_key,
is_final) at instant now.  The color key is resolved through the color
table with progress as the default. -/
def update_phase_data (d : RunData) (phase status step color_key : String)
    (is_final : Bool) (now : Int) : RunData :=
  { d with phases :=
      updatePhases phase status (colorsGet color_key) is_final step now d.phases }

/-- The JSON payload of one storage message, as read at lines 150-151.  Only
the workflow_id key is consulted by the cleanup pass; it is an Option
because data.get returns None when the key is missing. -/
structure RecordData where
  workflow_id : Option String
deriving DecidableEq, Repr

/-- One message of the storage channel as consumed by lines 139-165.
bot_id is whether msg.get("bot_id") is truthy; tsVal is the numeric value
of msg["ts"] when the key exists and parses as a float, none otherwise;
text is the parsed JSON body, none when json.loads raises. -/
structure StorageMsg where
  bot_id : Bool
  tsVal : Option Int
  text : Option RecordData
deriving DecidableEq, Repr

/-- The pipeline_msg dict built at lines 157-160. -/
structure PipeMsg where
  data : RecordData
  ts : Int
deriving DecidableEq, Repr

/-- The mutable locals of _cleanup_and_find_pipeline: pipeline_msg and to_delete. -/
structure CleanupState where
  pipeline : Option PipeMsg
  to_delete : List Int
deriving DecidableEq, Repr

/-- Lines 139-165: one iteration of the scanning loop of
_cleanup_and_find_pipeline.  Messages without bot_id are skipped; a
message older than the retention bound is put on the delete list before
its text is parsed; a parse failure skips the message; a within-window
record of the current workflow either becomes the new pipeline_msg
(sending the previously kept ts to the delete list) or is itself put on
the delete list. -/
def cleanupStep (wf : String) (tenAgo : Int) (st : CleanupState)
    (m : StorageMsg) : CleanupState :=
  if m.bot_id = false then st
  else
    match m.tsVal with
    | none => st
    | some t =>
      if t < tenAgo then { st with to_delete := st.to_delete ++ [t] }
      else
        match m.text with
        | none => st
        | some d =>
          if d.workflow_id = some wf then
            match st.pipeline with
            | none => { st with pipeline := some (PipeMsg.mk d t) }
            | some p =>
              if p.ts < t then
                CleanupState.mk (some (PipeMsg.mk d t)) (st.to_delete ++ [p.ts])
              else
                { st with to_delete := st.to_delete ++ [t] }
          else st

/-- Lines 130-165: the whole scanning loop, started from pipeline_msg = None
and to_delete = []. -/
def cleanupFold (wf : String) (tenAgo : Int) (msgs : List StorageMsg) : CleanupState :=
  msgs.foldl (cleanupStep wf tenAgo) (CleanupState.mk none [])

/-- Lines 167-175: the delete loop.  Each ts on the list gets its own
chat.delete attempt inside its own try block; delOk tells whether a given
attempt succeeds, and a failed attempt is logged and does not stop the
loop, so the outcome is one (ts, result) pair per entry. -/
def attemptDeletes (delOk : Int → Bool) (l : List Int) : List (Int × Bool) :=
  l.map (fun ts => (ts, delOk ts))

/-- Classifier for the branch at lines 146-148: a bot message whose ts parses
and is older than the retention bound. -/
def isOldMsg (tenAgo : Int) (m : StorageMsg) : Bool :=
  m.bot_id &&
    match m.tsVal with
    | some t => decide (t < tenAgo)
    | none => false

/-- Classifier for the branch at lines 150-162: a bot message within the
retention window whose text parses and whose workflow_id equals the
current workflow. -/
def isCandidateMsg (wf : String) (tenAgo : Int) (m : StorageMsg) : Bool :=
  m.bot_id &&
    match m.tsVal, m.text with
    | some t, some d => decide (tenAgo ≤ t) && decide (d.workflow_id = some wf)
    | _, _ => false

/-- The first phase of the list carrying the given name, i.e. the phase the
loop of _update_phase_data would update (it breaks on the first match). -/
def findPhase (ph : String) : List Phase → Option Phase
  | [] => none
  | p :: ps => if p.name = ph then some p else findPhase ph ps

/-- Invariant carrier for the cleanup proofs: a timestamp is either already
on the delete list or is the one currently kept as pipeline_msg. -/
def keptOrListed (t : Int) (st : CleanupState) : Prop :=
  t ∈ st.to_delete ∨ ∃ p, st.pipeline = some p ∧ p.ts = t

/-- Outward Slack calls made by the tail of update (lines 333-344):
chat.postMessage on the notification channel, chat.update on an existing
message ts, and the second _save_pipeline_data call that persists the new
message_ts. -/
inductive PubEvent where
  | postMessage : PubEvent
  | chatUpdateMsg : String → PubEvent
  | savePipeline : Option String → PubEvent
deriving DecidableEq, Repr

/-- Result of the publish tail of update: either the calls made together
with the resulting run data, or the process exit triggered by the
exception handler at lines 346-348. -/
inductive UpdateOutcome where
  | success : RunData → List PubEvent → UpdateOutcome
  | exitFailure : UpdateOutcome
deriving DecidableEq, Repr

/-- Lines 333-348: the publish tail of update.  When message_ts is set the
existing message is amended with chat.update; updateOk tells whether that
call succeeds, and a failure propagates to the handler at line 346 which
exits the process.  When message_ts is absent a new message is created
(its new ts is freshTs), stored into the run data and persisted. -/
def publishStep (updateOk : Bool) (freshTs : String) (d : RunData) : UpdateOutcome :=
  match d.message_ts with
  | some ts =>
    if updateOk then UpdateOutcome.success d [PubEvent.chatUpdateMsg ts]
    else UpdateOutcome.exitFailure
  | none =>
    UpdateOutcome.success { d with message_ts := some freshTs }
      [PubEvent.postMessage, PubEvent.savePipeline (some freshTs)]

/-- Result of one urlopen call inside _slack_request: a network-level
failure (urllib.error.URLError) or an HTTP response whose body carries an
ok flag. -/
inductive NetAttempt where
  | netFail : NetAttempt
  | response : Bool → NetAttempt
deriving DecidableEq, Repr

/-- The two raise paths of _slack_request: the re-raised URLError of line
104 and the SlackAPIError of line 98. -/
inductive ReqError where
  | urlError : ReqError
  | apiError : ReqError
deriving DecidableEq, Repr

/-- Lines 92-107: _slack_request performs exactly one urlopen call (the
value of net 0); a URLError is logged and re-raised, a response with ok
false raises SlackAPIError, otherwise the call succeeds.  The second
component counts the urlopen calls made, which is always one: there is no
retry loop in the function. -/
def slackRequest (net : Nat → NetAttempt) : Except ReqError Unit × Nat :=
  match net 0 with
  | NetAttempt.netFail => (Except.error ReqError.urlError, 1)
  | NetAttempt.response ok =>
    ((if ok then Except.ok () else Except.error ReqError.apiError), 1)

/-- Lines 109-128: _get_all_storage_messages pages through
conversations.history, extending all_messages after each successful call;
the surrounding try swallows any exception and the messages accumulated
so far are returned.  The argument is the sequence of page results. -/
def getAllStorageMessages : List (Except ReqError (List StorageMsg)) → List StorageMsg
  | [] => []
  | Except.error _ :: _ => []
  | Except.ok ms :: rest => ms ++ getAllStorageMessages rest

/-- A network oracle whose first attempt fails and whose later attempts
would succeed: the schedule under which any retrying client would
succeed, while _slack_request surfaces the first failure. -/
def retryNet : Nat → NetAttempt :=
  fun n => if n = 0 then NetAttempt.netFail else NetAttempt.response true

/-- The retention and duplicate-collapse behaviour of
_cleanup_and_find_pipeline on a message list: old bot records land on the
delete list; among the candidate records of the current workflow the one
with the greatest ts is kept as pipeline_msg and every other candidate ts
lands on the delete list; a within-window record of a different workflow
never lands on the delete list. -/
def retentionSpec (wf : String) (tenAgo : Int) (msgs : List StorageMsg) : Prop :=
  (∀ m ∈ msgs, ∀ t : Int, m.bot_id = true → m.tsVal = some t → t < tenAgo →
      t ∈ (cleanupFold wf tenAgo msgs).to_delete) ∧
  (∀ m ∈ msgs, ∀ t : Int, isCandidateMsg wf tenAgo m = true → m.tsVal = some t →
      ∃ p, (cleanupFold wf tenAgo msgs).pipeline = some p ∧ t ≤ p.ts ∧
        (∃ m2, m2 ∈ msgs ∧ isCandidateMsg wf tenAgo m2 = true ∧
          m2.tsVal = some p.ts) ∧
        (t ≠ p.ts → t ∈ (cleanupFold wf tenAgo msgs).to_delete)) ∧
  (∀ m ∈ msgs, ∀ t : Int, ∀ d : RecordData, ∀ w : String,
      m.tsVal = some t → tenAgo ≤ t → m.text = some d →
      d.workflow_id = some w → w ≠ wf →
      t ∉ (cleanupFold wf tenAgo msgs).to_delete)

/-- The frame property of the cleanup pass: a message without bot_id is
never deleted nor selected, a within-window message with unparseable text
is never deleted nor selected, and every entry of the delete list gets
its own delete attempt regardless of the outcome of the other attempts. -/
def cleanupFrameSpec (wf : String) (tenAgo : Int) (msgs : List StorageMsg) : Prop :=
  (∀ m ∈ msgs, ∀ t : Int, m.bot_id = false → m.tsVal = some t →
      t ∉ (cleanupFold wf tenAgo msgs).to_delete ∧
      ∀ p, (cleanupFold wf tenAgo msgs).pipeline = some p → p.ts ≠ t) ∧
  (∀ m ∈ msgs, ∀ t : Int, m.tsVal = some t → tenAgo ≤ t → m.text = none →
      t ∉ (cleanupFold wf tenAgo msgs).to_delete ∧
      ∀ p, (cleanupFold wf tenAgo msgs).pipeline = some p → p.ts ≠ t) ∧
  (∀ f : Int → Bool, ∀ t ∈ (cleanupFold wf tenAgo msgs).to_delete,
      (t, f t) ∈ attemptDeletes f (cleanupFold wf tenAgo msgs).to_delete)

/-! ## Lemmas about the merge engine -/

/-- A failure-locked phase keeps status, color and is_final; the step is
appended only when it is not already a member of steps. -/
lemma applyToPhase_locked (status c : String) (fin : Bool) (step : String)
    (now : Int) (p : Phase) (h : p.color = failureColor) :
    applyToPhase status c fin step now p =
      { p with steps := if step ∈ p.steps then p.steps else p.steps ++ [step],
               last_updated := now } := by
  by_cases hs : step ∈ p.steps <;> simp [applyToPhase, h, hs]

/-- A phase that is not failure-locked gets status, color and is_final
overwritten; the step is appended only when it is not already a member of
steps. -/
lemma applyToPhase_unlocked (status c : String) (fin : Bool) (step : String)
    (now : Int) (p : Phase) (h : ¬ p.color = failureColor) :
    applyToPhase status c fin step now p =
      { p with status := status, color := c, is_final := fin,
               steps := if step ∈ p.steps then p.steps else p.steps ++ [step],
               last_updated := now } := by
  by_cases hs : step ∈ p.steps <;> simp [applyToPhase, h, hs]

/-- applyToPhase never changes the name of a phase. -/
lemma applyToPhase_name (status c : String) (fin : Bool) (step : String)
    (now : Int) (p : Phase) :
    (applyToPhase status c fin step now p).name = p.name := by
  by_cases h : p.color = failureColor
  · rw [applyToPhase_locked status c fin step now p h]
  · rw [applyToPhase_unlocked status c fin step now p h]

/-- When the phase name occurs in the list, the updated list still has that
name first found at the same place, now carrying the applyToPhase image of
the previously found phase. -/
lemma updatePhases_find (ph status c : String) (fin : Bool) (step : String)
    (now : Int) (ps : List Phase) (p0 : Phase)
    (h : findPhase ph ps = some p0) :
    findPhase ph (updatePhases ph status c fin step now ps) =
      some (applyToPhase status c fin step now p0) := by
  induction ps with
  | nil => simp [findPhase] at h
  | cons p ps ih =>
    by_cases hp : p.name = ph
    · rw [findPhase, if_pos hp] at h
      injection h with h
      subst h
      simp only [updatePhases, if_pos hp]
      rw [findPhase, if_pos (by rw [applyToPhase_name]; exact hp)]
    · rw [findPhase, if_neg hp] at h
      simp only [updatePhases, if_neg hp]
      rw [findPhase, if_neg hp]
      exact ih h

/-- When no phase of the list carries the given name, updatePhases appends
exactly one fresh phase at the end and leaves the list untouched. -/
lemma updatePhases_not_found (ph status c : String) (fin : Bool) (step : String)
    (now : Int) (ps : List Phase) (h : ∀ p ∈ ps, p.name ≠ ph) :
    updatePhases ph status c fin step now ps =
      ps ++ [newPhase ph status c fin step now] := by
  induction ps with
  | nil => rfl
  | cons p ps ih =>
    have hp : p.name ≠ ph := h p (List.mem_cons_self p ps)
    simp only [updatePhases, if_neg hp, List.cons_append, List.cons.injEq, true_and]
    exact ih (fun q hq => h q (List.mem_cons_of_mem p hq))

/-- Re-applying an event to the phase it has just created changes nothing
but last_updated: the stored values already equal the incoming ones and
the step is already a member of steps. -/
lemma applyToPhase_same (ph status c : String) (fin : Bool) (step : String)
    (n1 n2 : Int) :
    applyToPhase status c fin step n2 (Phase.mk ph status c fin [step] n1 n1) =
      Phase.mk ph status c fin [step] n1 n2 := by
  by_cases hc : c = failureColor <;> simp [applyToPhase, hc]

/-! ## Lemmas about the cleanup pass -/

/-- Exhaustive description of one iteration of the scanning loop: a message
is skipped, or it is old and its ts joins the delete list, or it is a
candidate and it either becomes the kept pipeline_msg (from nothing, or
displacing a smaller kept ts onto the delete list) or its own ts joins
the delete list. -/
lemma cleanupStep_cases (wf : String) (tenAgo : Int) (st : CleanupState)
    (m : StorageMsg) :
    (isOldMsg tenAgo m = false ∧ isCandidateMsg wf tenAgo m = false ∧
        cleanupStep wf tenAgo st m = st) ∨
    (∃ t, isOldMsg tenAgo m = true ∧ isCandidateMsg wf tenAgo m = false ∧
        m.tsVal = some t ∧
        cleanupStep wf tenAgo st m = { st with to_delete := st.to_delete ++ [t] }) ∨
    (∃ t d, isOldMsg tenAgo m = false ∧ isCandidateMsg wf tenAgo m = true ∧
        m.tsVal = some t ∧ m.text = some d ∧ st.pipeline = none ∧
        cleanupStep wf tenAgo st m = { st with pipeline := some (PipeMsg.mk d t) }) ∨
    (∃ t d p, isOldMsg tenAgo m = false ∧ isCandidateMsg wf tenAgo m = true ∧
        m.tsVal = some t ∧ m.text = some d ∧ st.pipeline = some p ∧ p.ts < t ∧
        cleanupStep wf tenAgo st m =
          CleanupState.mk (some (PipeMsg.mk d t)) (st.to_delete ++ [p.ts])) ∨
    (∃ t p, isOldMsg tenAgo m = false ∧ isCandidateMsg wf tenAgo m = true ∧
        m.tsVal = some t ∧ st.pipeline = some p ∧ ¬ p.ts < t ∧
        cleanupStep wf tenAgo st m = { st with to_delete := st.to_delete ++ [t] }) := by
  obtain ⟨b, tv, tx⟩ := m
  cases b
  · left
    refine ⟨by simp [isOldMsg], by simp [isCandidateMsg], by simp [cleanupStep]⟩
  · cases tv with
    | none =>
      left
      refine ⟨by simp [isOldMsg], ?_, by simp [cleanupStep]⟩
      cases tx <;> simp [isCandidateMsg]
    | some t =>
      by_cases h1 : t < tenAgo
      · right; left
        refine ⟨t, by simp [isOldMsg, h1], ?_, rfl, by simp [cleanupStep, h1]⟩
        have h2 : ¬ tenAgo ≤ t := not_le.mpr h1
        cases tx <;> simp [isCandidateMsg, h2]
      · have h2 : tenAgo ≤ t := not_lt.mp h1
        cases tx with
        | none =>
          left
          refine ⟨by simp [isOldMsg, h1], by simp [isCandidateMsg], ?_⟩
          simp [cleanupStep, h1]
        | some d =>
          by_cases h3 : d.workflow_id = some wf
          · have hc : isCandidateMsg wf tenAgo (StorageMsg.mk true (some t) (some d)) = true := by
              simp [isCandidateMsg, h2, h3]
            cases hp : st.pipeline with
            | none =>
              right; right; left
              exact ⟨t, d, by simp [isOldMsg, h1], hc, rfl, rfl, rfl,
                by simp [cleanupStep, h1, h3, hp]⟩
            | some p =>
              by_cases h4 : p.ts < t
              · right; right; right; left
                exact ⟨t, d, p, by simp [isOldMsg, h1], hc, rfl, rfl, rfl, h4,
                  by simp [cleanupStep, h1, h3, hp, h4]⟩
              · right; right; right; right
                exact ⟨t, p, by simp [isOldMsg, h1], hc, rfl, rfl, h4,
                  by simp [cleanupStep, h1, h3, hp, h4]⟩
          · left
            refine ⟨by simp [isOldMsg, h1], by simp [isCandidateMsg, h3], ?_⟩
            simp [cleanupStep, h1, h3]

/-- One iteration only appends to the delete list. -/
lemma cleanupStep_to_delete_sub (wf : String) (tenAgo : Int) (st : CleanupState)
    (m : StorageMsg) :
    ∃ l, (cleanupStep wf tenAgo st m).to_delete = st.to_delete ++ l := by
  rcases cleanupStep_cases wf tenAgo st m with
    ⟨_, _, he⟩ | ⟨t, _, _, _, he⟩ | ⟨t, d, _, _, _, _, _, he⟩ |
    ⟨t, d, p, _, _, _, _, _, _, he⟩ | ⟨t, p, _, _, _, _, _, he⟩
  · exact ⟨[], by rw [he]; simp⟩
  · exact ⟨[t], by rw [he]⟩
  · exact ⟨[], by rw [he]; simp⟩
  · exact ⟨[p.ts], by rw [he]⟩
  · exact ⟨[t], by rw [he]⟩

/-- Membership of the delete list is preserved by the rest of the scan. -/
lemma mem_to_delete_foldl (wf : String) (tenAgo : Int) (msgs : List StorageMsg)
    (st : CleanupState) (t : Int) (h : t ∈ st.to_delete) :
    t ∈ (msgs.foldl (cleanupStep wf tenAgo) st).to_delete := by
  induction msgs generalizing st with
  | nil => exact h
  | cons m ms ih =>
    simp only [List.foldl_cons]
    obtain ⟨l, hl⟩ := cleanupStep_to_delete_sub wf tenAgo st m
    exact ih _ (by rw [hl]; exact List.mem_append_left _ h)

/-- Once a pipeline_msg is kept, the rest of the scan keeps one whose ts is
at least as large. -/
lemma pipeline_mono (wf : String) (tenAgo : Int) (msgs : List StorageMsg)
    (st : CleanupState) (p0 : PipeMsg) (h : st.pipeline = some p0) :
    ∃ p, (msgs.foldl (cleanupStep wf tenAgo) st).pipeline = some p ∧
      p0.ts ≤ p.ts := by
  induction msgs generalizing st p0 with
  | nil => exact ⟨p0, h, le_refl _⟩
  | cons m ms ih =>
    simp only [List.foldl_cons]
    rcases cleanupStep_cases wf tenAgo st m with
      ⟨_, _, he⟩ | ⟨t, _, _, _, he⟩ | ⟨t, d, _, _, _, _, hp, he⟩ |
      ⟨t, d, p, _, _, _, _, hp, hlt, he⟩ | ⟨t, p, _, _, _, hp, _, he⟩
    · exact ih _ p0 (by rw [he]; exact h)
    · exact ih _ p0 (by rw [he]; exact h)
    · rw [hp] at h; cases h
    · rw [h] at hp
      injection hp with hp
      obtain ⟨pf, hf, hle⟩ := ih (cleanupStep wf tenAgo st m) (PipeMsg.mk d t)
        (by rw [he])
      exact ⟨pf, hf, le_trans (le_of_lt (hp ▸ hlt)) hle⟩
    · exact ih _ p0 (by rw [he]; exact h)

/-- Every candidate bounds the ts of the finally kept pipeline_msg from
below: the scan keeps a record whose ts is maximal among the candidates. -/
lemma candidate_le_pipeline (wf : String) (tenAgo : Int) (msgs : List StorageMsg)
    (st : CleanupState) (m : StorageMsg) (t : Int) (hm : m ∈ msgs)
    (hc : isCandidateMsg wf tenAgo m = true) (ht : m.tsVal = some t) :
    ∃ p, (msgs.foldl (cleanupStep wf tenAgo) st).pipeline = some p ∧
      t ≤ p.ts := by
  induction msgs generalizing st with
  | nil => cases hm
  | cons a ms ih =>
    simp only [List.foldl_cons]
    rcases List.mem_cons.mp hm with rfl | hm2
    · rcases cleanupStep_cases wf tenAgo st m with
        ⟨_, hcf, _⟩ | ⟨t2, _, hcf, _, _⟩ | ⟨t2, d, _, _, ht2, _, hp, he⟩ |
        ⟨t2, d, p, _, _, ht2, _, hp, hlt, he⟩ | ⟨t2, p, _, _, ht2, hp, hnlt, he⟩
      · rw [hcf] at hc; cases hc
      · rw [hcf] at hc; cases hc
      · rw [ht] at ht2
        injection ht2 with ht2
        obtain ⟨pf, hf, hle⟩ := pipeline_mono wf tenAgo ms
          (cleanupStep wf tenAgo st m) (PipeMsg.mk d t2) (by rw [he])
        exact ⟨pf, hf, ht2 ▸ hle⟩
      · rw [ht] at ht2
        injection ht2 with ht2
        obtain ⟨pf, hf, hle⟩ := pipeline_mono wf tenAgo ms
          (cleanupStep wf tenAgo st m) (PipeMsg.mk d t2) (by rw [he])
        exact ⟨pf, hf, ht2 ▸ hle⟩
      · rw [ht] at ht2
        injection ht2 with ht2
        obtain ⟨pf, hf, hle⟩ := pipeline_mono wf tenAgo ms
          (cleanupStep wf tenAgo st m) p (by rw [he]; exact hp)
        exact ⟨pf, hf, le_trans (ht2 ▸ not_lt.mp hnlt) hle⟩
    · exact ih _ hm2

/-- keptOrListed is preserved by the rest of the scan: a ts that is on the
delete list stays there, and a kept ts that is displaced moves onto the
delete list. -/
lemma keptOrListed_foldl (wf : String) (tenAgo : Int) (msgs : List StorageMsg)
    (st : CleanupState) (t : Int) (h : keptOrListed t st) :
    keptOrListed t (msgs.foldl (cleanupStep wf tenAgo) st) := by
  induction msgs generalizing st with
  | nil => exact h
  | cons m ms ih =>
    simp only [List.foldl_cons]
    apply ih
    rcases cleanupStep_cases wf tenAgo st m with
      ⟨_, _, he⟩ | ⟨t2, _, _, _, he⟩ | ⟨t2, d, _, _, _, _, hp, he⟩ |
      ⟨t2, d, p, _, _, _, _, hp, _, he⟩ | ⟨t2, p, _, _, _, hp, _, he⟩
    · rw [he]; exact h
    · rcases h with h | ⟨p2, hp2, hts⟩
      · exact Or.inl (by rw [he]; exact List.mem_append_left _ h)
      · exact Or.inr ⟨p2, by rw [he]; exact hp2, hts⟩
    · rcases h with h | ⟨p2, hp2, hts⟩
      · exact Or.inl (by rw [he]; exact h)
      · rw [hp] at hp2; cases hp2
    · rcases h with h | ⟨p2, hp2, hts⟩
      · exact Or.inl (by rw [he]; exact List.mem_append_left _ h)
      · rw [hp] at hp2
        injection hp2 with hp2
        apply Or.inl
        rw [he]
        apply List.mem_append_right
        rw [hp2, hts]
        exact List.mem_singleton.mpr rfl
    · rcases h with h | ⟨p2, hp2, hts⟩
      · exact Or.inl (by rw [he]; exact List.mem_append_left _ h)
      · exact Or.inr ⟨p2, by rw [he]; exact hp2, hts⟩

/-- The ts of every candidate ends up either on the delete list or as the
ts of the finally kept pipeline_msg. -/
lemma candidate_covered (wf : String) (tenAgo : Int) (msgs : List StorageMsg)
    (st : CleanupState) (m : StorageMsg) (t : Int) (hm : m ∈ msgs)
    (hc : isCandidateMsg wf tenAgo m = true) (ht : m.tsVal = some t) :
    keptOrListed t (msgs.foldl (cleanupStep wf tenAgo) st) := by
  induction msgs generalizing st with
  | nil => cases hm
  | cons a ms ih =>
    simp only [List.foldl_cons]
    rcases List.mem_cons.mp hm with rfl | hm2
    · apply keptOrListed_foldl
      rcases cleanupStep_cases wf tenAgo st m with
        ⟨_, hcf, _⟩ | ⟨t2, _, hcf, _, _⟩ | ⟨t2, d, _, _, ht2, _, hp, he⟩ |
        ⟨t2, d, p, _, _, ht2, _, hp, _, he⟩ | ⟨t2, p, _, _, ht2, hp, _, he⟩
      · rw [hcf] at hc; cases hc
      · rw [hcf] at hc; cases hc
      · rw [ht] at ht2
        injection ht2 with ht2
        exact Or.inr ⟨PipeMsg.mk d t2, by rw [he], ht2.symm⟩
      · rw [ht] at ht2
        injection ht2 with ht2
        exact Or.inr ⟨PipeMsg.mk d t2, by rw [he], ht2.symm⟩
      · rw [ht] at ht2
        injection ht2 with ht2
        apply Or.inl
        rw [he]
        apply List.mem_append_right
        rw [ht2]
        exact List.mem_singleton.mpr rfl
    · exact ih _ hm2

/-- The finally kept pipeline_msg comes from the initial state or from a
candidate message of the scanned list, carrying its ts and parsed data. -/
lemma pipeline_source (wf : String) (tenAgo : Int) (msgs : List StorageMsg)
    (st : CleanupState) (p : PipeMsg)
    (h : (msgs.foldl (cleanupStep wf tenAgo) st).pipeline = some p) :
    st.pipeline = some p ∨
      ∃ m, m ∈ msgs ∧ isCandidateMsg wf tenAgo m = true ∧
        m.tsVal = some p.ts ∧ m.text = some p.data := by
  induction msgs generalizing st with
  | nil => exact Or.inl h
  | cons a ms ih =>
    simp only [List.foldl_cons] at h
    rcases ih _ h with h2 | ⟨m, hm, hc, ht, htx⟩
    · rcases cleanupStep_cases wf tenAgo st a with
        ⟨_, _, he⟩ | ⟨t2, _, _, _, he⟩ | ⟨t2, d, _, hc2, ht2, htx2, hp, he⟩ |
        ⟨t2, d, p2, _, hc2, ht2, htx2, hp, _, he⟩ | ⟨t2, p2, _, _, _, hp, _, he⟩
      · rw [he] at h2; exact Or.inl h2
      · rw [he] at h2; exact Or.inl h2
      · rw [he] at h2
        injection h2 with h2
        subst h2
        exact Or.inr ⟨a, List.mem_cons_self a ms, hc2, ht2, htx2⟩
      · rw [he] at h2
        injection h2 with h2
        subst h2
        exact Or.inr ⟨a, List.mem_cons_self a ms, hc2, ht2, htx2⟩
      · rw [he] at h2; exact Or.inl h2
    · exact Or.inr ⟨m, List.mem_cons_of_mem a hm, hc, ht, htx⟩

/-- Every ts of the final delete list was there initially, or was the kept
ts of the initial state, or is the ts of an old or candidate message of
the scanned list: the delete list never picks up anything else. -/
lemma to_delete_source (wf : String) (tenAgo : Int) (msgs : List StorageMsg)
    (st : CleanupState) (t : Int)
    (h : t ∈ (msgs.foldl (cleanupStep wf tenAgo) st).to_delete) :
    t ∈ st.to_delete ∨ (∃ p, st.pipeline = some p ∧ p.ts = t) ∨
      ∃ m, m ∈ msgs ∧
        (isOldMsg tenAgo m = true ∨ isCandidateMsg wf tenAgo m = true) ∧
        m.tsVal = some t := by
  induction msgs generalizing st with
  | nil => exact Or.inl h
  | cons a ms ih =>
    simp only [List.foldl_cons] at h
    rcases ih _ h with h2 | ⟨p, hp, hts⟩ | ⟨m, hm, hk, ht⟩
    · rcases cleanupStep_cases wf tenAgo st a with
        ⟨_, _, he⟩ | ⟨t2, ho2, _, ht2, he⟩ | ⟨t2, d, _, _, _, _, hp, he⟩ |
        ⟨t2, d, p2, _, _, _, _, hp, _, he⟩ | ⟨t2, p2, _, hc2, ht2, hp, _, he⟩
      · rw [he] at h2; exact Or.inl h2
      · rw [he] at h2
        rcases List.mem_append.mp h2 with h3 | h3
        · exact Or.inl h3
        · have h4 : t = t2 := List.mem_singleton.mp h3
          exact Or.inr (Or.inr ⟨a, List.mem_cons_self a ms, Or.inl ho2,
            h4 ▸ ht2⟩)
      · rw [he] at h2; exact Or.inl h2
      · rw [he] at h2
        rcases List.mem_append.mp h2 with h3 | h3
        · exact Or.inl h3
        · have h4 : t = p2.ts := List.mem_singleton.mp h3
          exact Or.inr (Or.inl ⟨p2, hp, h4.symm⟩)
      · rw [he] at h2
        rcases List.mem_append.mp h2 with h3 | h3
        · exact Or.inl h3
        · have h4 : t = t2 := List.mem_singleton.mp h3
          exact Or.inr (Or.inr ⟨a, List.mem_cons_self a ms, Or.inr hc2,
            h4 ▸ ht2⟩)
    · rcases cleanupStep_cases wf tenAgo st a with
        ⟨_, _, he⟩ | ⟨t2, _, _, _, he⟩ | ⟨t2, d, _, hc2, ht2, _, hp2, he⟩ |
        ⟨t2, d, p2, _, hc2, ht2, _, hp2, _, he⟩ | ⟨t2, p2, _, _, _, hp2, _, he⟩
      · rw [he] at hp; exact Or.inr (Or.inl ⟨p, hp, hts⟩)
      · rw [he] at hp; exact Or.inr (Or.inl ⟨p, hp, hts⟩)
      · rw [he] at hp
        injection hp with hp
        subst hp
        exact Or.inr (Or.inr ⟨a, List.mem_cons_self a ms, Or.inr hc2,
          hts ▸ ht2⟩)
      · rw [he] at hp
        injection hp with hp
        subst hp
        exact Or.inr (Or.inr ⟨a, List.mem_cons_self a ms, Or.inr hc2,
          hts ▸ ht2⟩)
      · rw [he] at hp; exact Or.inr (Or.inl ⟨p, hp, hts⟩)
    · exact Or.inr (Or.inr ⟨m, List.mem_cons_of_mem a hm, hk, ht⟩)

/-- In a list whose filterMap image is duplicate-free, two members mapping
to the same value are equal. -/
lemma filterMap_nodup_inj {α β : Type} (f : α → Option β) (l : List α)
    (h : (l.filterMap f).Nodup) (a b : α) (ha : a ∈ l) (hb : b ∈ l)
    (t : β) (hfa : f a = some t) (hfb : f b = some t) : a = b := by
  induction l with
  | nil => cases ha
  | cons x xs ih =>
    rw [List.filterMap_cons] at h
    cases hx : f x with
    | none =>
      rw [hx] at h
      rcases List.mem_cons.mp ha with rfl | ha2
      · rw [hx] at hfa; cases hfa
      rcases List.mem_cons.mp hb with rfl | hb2
      · rw [hx] at hfb; cases hfb
      exact ih h ha2 hb2
    | some v =>
      rw [hx] at h
      have hnd := List.nodup_cons.mp h
      rcases List.mem_cons.mp ha with rfl | ha2
      · rcases List.mem_cons.mp hb with rfl | hb2
        · rfl
        · rw [hfa] at hx
          injection hx with hx
          exact absurd (List.mem_filterMap.mpr ⟨b, hb2, hfb⟩)
            (hx ▸ hnd.1)
      · rcases List.mem_cons.mp hb with rfl | hb2
        · rw [hfb] at hx
          injection hx with hx
          exact absurd (List.mem_filterMap.mpr ⟨a, ha2, hfa⟩)
            (hx ▸ hnd.1)
        · exact ih hnd.2 ha2 hb2

/-- The ts of every old bot message of the scanned list ends up on the
delete list. -/
lemma old_mem_to_delete (wf : String) (tenAgo : Int) (msgs : List StorageMsg)
    (st : CleanupState) (m : StorageMsg) (t : Int) (hm : m ∈ msgs)
    (hb : m.bot_id = true) (ht : m.tsVal = some t) (hlt : t < tenAgo) :
    t ∈ (msgs.foldl (cleanupStep wf tenAgo) st).to_delete := by
  induction msgs generalizing st with
  | nil => cases hm
  | cons a ms ih =>
    simp only [List.foldl_cons]
    rcases List.mem_cons.mp hm with rfl | hm2
    · have ho : isOldMsg tenAgo m = true := by simp [isOldMsg, hb, ht, hlt]
      rcases cleanupStep_cases wf tenAgo st m with
        ⟨ho2, _, _⟩ | ⟨t2, _, _, ht2, he⟩ | ⟨t2, d, ho2, _, _, _, _, he⟩ |
        ⟨t2, d, p, ho2, _, _, _, _, _, he⟩ | ⟨t2, p, ho2, _, _, _, _, he⟩
      · rw [ho2] at ho; cases ho
      · rw [ht] at ht2
        injection ht2 with ht2
        apply mem_to_delete_foldl
        rw [he]
        apply List.mem_append_right
        rw [ht2]
        exact List.mem_singleton.mpr rfl
      · rw [ho2] at ho; cases ho
      · rw [ho2] at ho; cases ho
      · rw [ho2] at ho; cases ho
    · exact ih _ hm2

/-! ## Claim theorems -/

/-- C1 counterexample: the claim states that an event hitting a
failure-locked phase still gets its step appended to steps.  On the code
this fails when the incoming step is already a member of the steps list:
here the locked phase "deploy" has steps ["s"], the event carries step
"s" with colorClass success, and after _update_phase_data the steps list
is still ["s"] (the membership test at line 238 suppressed the append);
it is not ["s", "s"] as the claim requires. -/
theorem c1_counterexample :
    (Phase.mk "deploy" "failed" "#F44336" true ["s"] 0 0).color = failureColor ∧
    (update_phase_data
        (RunData.mk "w" [Phase.mk "deploy" "failed" "#F44336" true ["s"] 0 0] none 0)
        "deploy" "ok" "s" "success" false 1).phases.map Phase.steps = [["s"]] ∧
    ¬ (update_phase_data
        (RunData.mk "w" [Phase.mk "deploy" "failed" "#F44336" true ["s"] 0 0] none 0)
        "deploy" "ok" "s" "success" false 1).phases.map Phase.steps = [["s", "s"]] :=
  ⟨by decide, by decide, by decide⟩

/-- C1 (amended): for every run state whose first phase with the given name
has the failure color, applying any event for that phase name (any
status, color key and finality flag) leaves that phase with its status,
color and is_final unchanged, and appends the step to steps unless the
step is already a member of steps, in which case steps are unchanged;
only last_updated is refreshed.  The amendment relative to the claim is
the membership guard on the append, forced by the counterexample. -/
theorem c1_failure_lock (d : RunData) (ph status step ck : String) (fin : Bool)
    (now : Int) (p0 : Phase)
    (hfind : findPhase ph d.phases = some p0)
    (hlock : p0.color = failureColor) :
    findPhase ph (update_phase_data d ph status step ck fin now).phases =
      some { p0 with
              steps := if step ∈ p0.steps then p0.steps else p0.steps ++ [step],
              last_updated := now } := by
  have h1 := updatePhases_find ph status (colorsGet ck) fin step now d.phases p0 hfind
  rw [applyToPhase_locked status (colorsGet ck) fin step now p0 hlock] at h1
  exact h1

/-- C1 witness: the failure lock applied to a concrete locked phase and a
fresh step, which does get appended. -/
theorem c1_witness :
    findPhase "deploy"
        (RunData.mk "w" [Phase.mk "deploy" "failed" "#F44336" true ["s1"] 0 0] none 0).phases =
      some (Phase.mk "deploy" "failed" "#F44336" true ["s1"] 0 0) ∧
    (Phase.mk "deploy" "failed" "#F44336" true ["s1"] 0 0).color = failureColor ∧
    findPhase "deploy"
        (update_phase_data
          (RunData.mk "w" [Phase.mk "deploy" "failed" "#F44336" true ["s1"] 0 0] none 0)
          "deploy" "ok" "s2" "success" false 5).phases =
      some { Phase.mk "deploy" "failed" "#F44336" true ["s1"] 0 0 with
              steps := if "s2" ∈ ["s1"] then ["s1"] else ["s1"] ++ ["s2"],
              last_updated := 5 } :=
  ⟨by decide, by decide, c1_failure_lock
    (RunData.mk "w" [Phase.mk "deploy" "failed" "#F44336" true ["s1"] 0 0] none 0)
    "deploy" "ok" "s2" "success" false 5
    (Phase.mk "deploy" "failed" "#F44336" true ["s1"] 0 0) (by decide) (by decide)⟩

/-- C2: starting from a run state with no phases, the events
(build, Building, compile, progress), (build, Build failed, compile
error, failure), (build, Retrying, retry, progress) merge into exactly
one phase named build with the failure color, status "Build failed" and
steps ["compile", "compile error", "retry"]. -/
theorem c2_end_to_end :
    (update_phase_data (update_phase_data (update_phase_data
        (RunData.mk "w" [] none 0)
        "build" "Building" "compile" "progress" false 1)
        "build" "Build failed" "compile error" "failure" false 2)
        "build" "Retrying" "retry" "progress" false 3).phases =
      [Phase.mk "build" "Build failed" failureColor false
        ["compile", "compile error", "retry"] 1 3] := by decide

/-- C3 counterexample: the claim states that a step equal to an earlier,
non-last element of steps is still appended.  Here the non-locked phase
"build" has steps ["a", "b"], the incoming step is "a" (an earlier,
non-last element), and after _update_phase_data the steps list is still
["a", "b"], not ["a", "b", "a"]: the membership test at line 238 checks
the whole list, not only the last element. -/
theorem c3_counterexample :
    (update_phase_data
        (RunData.mk "w" [Phase.mk "build" "Building" "#FF9800" false ["a", "b"] 0 0] none 0)
        "build" "Retrying" "a" "progress" false 1).phases.map Phase.steps = [["a", "b"]] ∧
    ¬ (update_phase_data
        (RunData.mk "w" [Phase.mk "build" "Building" "#FF9800" false ["a", "b"] 0 0] none 0)
        "build" "Retrying" "a" "progress" false 1).phases.map Phase.steps =
      [["a", "b", "a"]] :=
  ⟨by decide, by decide⟩

/-- C3 (amended): when the first phase with the given name is present and
not failure-locked, the event overwrites status, color and is_final and
appends the step to steps unless the step is already a member of steps
anywhere (not merely as the last element), in which case steps are
unchanged.  The amendment relative to the claim replaces the last-element
dedup test by a whole-list membership test, forced by the
counterexample. -/
theorem c3_dedup_membership (d : RunData) (ph status step ck : String) (fin : Bool)
    (now : Int) (p0 : Phase)
    (hfind : findPhase ph d.phases = some p0)
    (hnl : ¬ p0.color = failureColor) :
    findPhase ph (update_phase_data d ph status step ck fin now).phases =
      some { p0 with
              status := status, color := colorsGet ck, is_final := fin,
              steps := if step ∈ p0.steps then p0.steps else p0.steps ++ [step],
              last_updated := now } := by
  have h1 := updatePhases_find ph status (colorsGet ck) fin step now d.phases p0 hfind
  rw [applyToPhase_unlocked status (colorsGet ck) fin step now p0 hnl] at h1
  exact h1

/-- C3 witness: the dedup policy applied to a concrete non-locked phase and
a fresh step, which does get appended. -/
theorem c3_witness :
    findPhase "build"
        (RunData.mk "w" [Phase.mk "build" "Building" "#FF9800" false ["a", "b"] 0 0] none 0).phases =
      some (Phase.mk "build" "Building" "#FF9800" false ["a", "b"] 0 0) ∧
    ¬ (Phase.mk "build" "Building" "#FF9800" false ["a", "b"] 0 0).color = failureColor ∧
    findPhase "build"
        (update_phase_data
          (RunData.mk "w" [Phase.mk "build" "Building" "#FF9800" false ["a", "b"] 0 0] none 0)
          "build" "Testing" "c" "success" true 7).phases =
      some { Phase.mk "build" "Building" "#FF9800" false ["a", "b"] 0 0 with
              status := "Testing", color := colorsGet "success", is_final := true,
              steps := if "c" ∈ ["a", "b"] then ["a", "b"] else ["a", "b"] ++ ["c"],
              last_updated := 7 } :=
  ⟨by decide, by decide, c3_dedup_membership
    (RunData.mk "w" [Phase.mk "build" "Building" "#FF9800" false ["a", "b"] 0 0] none 0)
    "build" "Testing" "c" "success" true 7
    (Phase.mk "build" "Building" "#FF9800" false ["a", "b"] 0 0) (by decide) (by decide)⟩

/-- C4: applying the same event twice (identical phase, status, step and
color key) to a run state with no phases produces a single phase whose
steps list has length 1 (the dedup policy of line 238), and the second
application leaves status, color, is_final and steps exactly as they were
after the first application. -/
theorem c4_idempotence (d : RunData) (ph status step ck : String) (fin : Bool)
    (n1 n2 : Int) (h : d.phases = []) :
    (update_phase_data d ph status step ck fin n1).phases.map
        (fun p => p.steps.length) = [1] ∧
    (update_phase_data (update_phase_data d ph status step ck fin n1)
        ph status step ck fin n2).phases.map Phase.status =
      (update_phase_data d ph status step ck fin n1).phases.map Phase.status ∧
    (update_phase_data (update_phase_data d ph status step ck fin n1)
        ph status step ck fin n2).phases.map Phase.color =
      (update_phase_data d ph status step ck fin n1).phases.map Phase.color ∧
    (update_phase_data (update_phase_data d ph status step ck fin n1)
        ph status step ck fin n2).phases.map Phase.is_final =
      (update_phase_data d ph status step ck fin n1).phases.map Phase.is_final ∧
    (update_phase_data (update_phase_data d ph status step ck fin n1)
        ph status step ck fin n2).phases.map Phase.steps =
      (update_phase_data d ph status step ck fin n1).phases.map Phase.steps := by
  have h1 : updatePhases ph status (colorsGet ck) fin step n1 d.phases =
      [Phase.mk ph status (colorsGet ck) fin [step] n1 n1] := by
    simp [h, updatePhases, newPhase]
  have h2 : updatePhases ph status (colorsGet ck) fin step n2
      (updatePhases ph status (colorsGet ck) fin step n1 d.phases) =
      [Phase.mk ph status (colorsGet ck) fin [step] n1 n2] := by
    rw [h1]
    simp [updatePhases, applyToPhase_same]
  refine ⟨?_, ?_, ?_, ?_, ?_⟩ <;> simp only [update_phase_data] <;>
    (first
      | rw [h2, h1]
      | rw [h1]) <;> simp

/-- C4 witness: the idempotence statement at a concrete event applied twice
to a fresh run state. -/
theorem c4_witness :
    (RunData.mk "w" [] none 0).phases = [] ∧
    ((update_phase_data (RunData.mk "w" [] none 0)
        "build" "Building" "compile" "progress" false 1).phases.map
        (fun p => p.steps.length) = [1] ∧
    (update_phase_data (update_phase_data (RunData.mk "w" [] none 0)
        "build" "Building" "compile" "progress" false 1)
        "build" "Building" "compile" "progress" false 2).phases.map Phase.status =
      (update_phase_data (RunData.mk "w" [] none 0)
        "build" "Building" "compile" "progress" false 1).phases.map Phase.status ∧
    (update_phase_data (update_phase_data (RunData.mk "w" [] none 0)
        "build" "Building" "compile" "progress" false 1)
        "build" "Building" "compile" "progress" false 2).phases.map Phase.color =
      (update_phase_data (RunData.mk "w" [] none 0)
        "build" "Building" "compile" "progress" false 1).phases.map Phase.color ∧
    (update_phase_data (update_phase_data (RunData.mk "w" [] none 0)
        "build" "Building" "compile" "progress" false 1)
        "build" "Building" "compile" "progress" false 2).phases.map Phase.is_final =
      (update_phase_data (RunData.mk "w" [] none 0)
        "build" "Building" "compile" "progress" false 1).phases.map Phase.is_final ∧
    (update_phase_data (update_phase_data (RunData.mk "w" [] none 0)
        "build" "Building" "compile" "progress" false 1)
        "build" "Building" "compile" "progress" false 2).phases.map Phase.steps =
      (update_phase_data (RunData.mk "w" [] none 0)
        "build" "Building" "compile" "progress" false 1).phases.map Phase.steps) :=
  ⟨rfl, c4_idempotence (RunData.mk "w" [] none 0)
    "build" "Building" "compile" "progress" false 1 2 rfl⟩

/-- C5: applying an event for a phase name not present in the run state
appends exactly one new phase at the end, leaves every existing phase
untouched, and the new phase carries the name, status, resolved color and
finality flag of the event, steps equal to the one-element list [step],
and started_at equal to last_updated (both are the same time.time value
of line 245). -/
theorem c5_new_phase (d : RunData) (ph status step ck : String) (fin : Bool)
    (now : Int) (h : ∀ p ∈ d.phases, p.name ≠ ph) :
    (update_phase_data d ph status step ck fin now).phases =
      d.phases ++ [Phase.mk ph status (colorsGet ck) fin [step] now now] := by
  have h1 := updatePhases_not_found ph status (colorsGet ck) fin step now d.phases h
  simpa [update_phase_data, newPhase] using h1

/-- C5 witness: new-phase creation on a run state that already holds an
unrelated phase, which is left untouched. -/
theorem c5_witness :
    (∀ p ∈ (RunData.mk "w" [Phase.mk "build" "ok" "#4CAF50" true ["compile"] 1 2] none 0).phases,
        p.name ≠ "deploy") ∧
    (update_phase_data
        (RunData.mk "w" [Phase.mk "build" "ok" "#4CAF50" true ["compile"] 1 2] none 0)
        "deploy" "Deploying" "apply" "start" false 9).phases =
      (RunData.mk "w" [Phase.mk "build" "ok" "#4CAF50" true ["compile"] 1 2] none 0).phases ++
        [Phase.mk "deploy" "Deploying" (colorsGet "start") false ["apply"] 9 9] :=
  ⟨by decide, c5_new_phase
    (RunData.mk "w" [Phase.mk "build" "ok" "#4CAF50" true ["compile"] 1 2] none 0)
    "deploy" "Deploying" "apply" "start" false 9 (by decide)⟩

/-- C6: the cleanup pass of _cleanup_and_find_pipeline puts the ts of every
bot-authored record older than the retention bound on the delete list;
among the within-window records whose workflow_id matches the current
workflow it keeps exactly one with the greatest ts as pipeline_msg and
puts the ts of every other matching record on the delete list; and the ts
of a within-window record of a different workflow never reaches the
delete list.  The Nodup hypothesis models the Slack guarantee that
message ts values are unique within a channel. -/
theorem c6_retention_collapse (wf : String) (tenAgo : Int)
    (msgs : List StorageMsg)
    (hnd : (msgs.filterMap StorageMsg.tsVal).Nodup) :
    retentionSpec wf tenAgo msgs := by
  refine ⟨?_, ?_, ?_⟩
  · intro m hm t hb ht hlt
    exact old_mem_to_delete wf tenAgo msgs (CleanupState.mk none []) m t hm hb ht hlt
  · intro m hm t hc ht
    obtain ⟨p, hp, hle⟩ :=
      candidate_le_pipeline wf tenAgo msgs (CleanupState.mk none []) m t hm hc ht
    refine ⟨p, hp, hle, ?_, ?_⟩
    · rcases pipeline_source wf tenAgo msgs (CleanupState.mk none []) p hp with
        h2 | ⟨m2, hm2, hc2, ht2, _⟩
      · cases h2
      · exact ⟨m2, hm2, hc2, ht2⟩
    · intro hne
      rcases candidate_covered wf tenAgo msgs (CleanupState.mk none []) m t hm hc ht with
        h2 | ⟨p2, hp2, hts⟩
      · exact h2
      · rw [hp] at hp2
        injection hp2 with hp2
        have hpt : p.ts = t := by rw [hp2]; exact hts
        exact absurd hpt.symm hne
  · intro m hm t d w ht hwin htx hwid hne hmem
    rcases to_delete_source wf tenAgo msgs (CleanupState.mk none []) t hmem with
      h2 | ⟨p, hp, _⟩ | ⟨m2, hm2, hk, ht2⟩
    · cases h2
    · cases hp
    · have heq : m2 = m :=
        filterMap_nodup_inj StorageMsg.tsVal msgs hnd m2 m hm2 hm t ht2 ht
      subst heq
      rcases hk with ho | hc
      · simp [isOldMsg, ht] at ho
        exact absurd ho.2 (not_lt.mpr hwin)
      · simp [isCandidateMsg, ht, htx] at hc
        have hww : some w = some wf := by rw [← hwid]; exact hc.2.2
        injection hww with hww
        exact hne hww

/-- C6 witness: retention and duplicate collapse on a concrete message
list holding one old record, two matching candidates and one record of a
different workflow. -/
theorem c6_witness :
    (([ StorageMsg.mk true (some 10) (some (RecordData.mk (some "w"))),
        StorageMsg.mk true (some 150) (some (RecordData.mk (some "w"))),
        StorageMsg.mk true (some 200) (some (RecordData.mk (some "w"))),
        StorageMsg.mk true (some 120) (some (RecordData.mk (some "x"))) ].filterMap
          StorageMsg.tsVal).Nodup) ∧
    retentionSpec "w" 100
      [ StorageMsg.mk true (some 10) (some (RecordData.mk (some "w"))),
        StorageMsg.mk true (some 150) (some (RecordData.mk (some "w"))),
        StorageMsg.mk true (some 200) (some (RecordData.mk (some "w"))),
        StorageMsg.mk true (some 120) (some (RecordData.mk (some "x"))) ] :=
  ⟨by decide, c6_retention_collapse "w" 100
    [ StorageMsg.mk true (some 10) (some (RecordData.mk (some "w"))),
      StorageMsg.mk true (some 150) (some (RecordData.mk (some "w"))),
      StorageMsg.mk true (some 200) (some (RecordData.mk (some "w"))),
      StorageMsg.mk true (some 120) (some (RecordData.mk (some "x"))) ]
    (by decide)⟩

/-- C7: with message_ts absent the publish tail of update calls
chat.postMessage, stores the new ts into the run data and persists it
through the second _save_pipeline_data call; a later publish on the
resulting state calls chat.update on exactly that ts and makes no
chat.postMessage call, so no second outward message is ever created. -/
theorem c7_message_lifecycle (d : RunData) (t1 t2 : String) (ok1 : Bool)
    (h : d.message_ts = none) :
    publishStep ok1 t1 d =
      UpdateOutcome.success { d with message_ts := some t1 }
        [PubEvent.postMessage, PubEvent.savePipeline (some t1)] ∧
    ({ d with message_ts := some t1 } : RunData).message_ts = some t1 ∧
    publishStep true t2 { d with message_ts := some t1 } =
      UpdateOutcome.success { d with message_ts := some t1 }
        [PubEvent.chatUpdateMsg t1] := by
  refine ⟨?_, rfl, rfl⟩
  simp [publishStep, h]

/-- C7 witness: the message lifecycle on a concrete fresh run state. -/
theorem c7_witness :
    (RunData.mk "w" [] none 0).message_ts = none ∧
    (publishStep true "111.1" (RunData.mk "w" [] none 0) =
      UpdateOutcome.success
        { RunData.mk "w" [] none 0 with message_ts := some "111.1" }
        [PubEvent.postMessage, PubEvent.savePipeline (some "111.1")] ∧
    ({ RunData.mk "w" [] none 0 with message_ts := some "111.1" } : RunData).message_ts =
      some "111.1" ∧
    publishStep true "222.2"
        { RunData.mk "w" [] none 0 with message_ts := some "111.1" } =
      UpdateOutcome.success
        { RunData.mk "w" [] none 0 with message_ts := some "111.1" }
        [PubEvent.chatUpdateMsg "111.1"]) :=
  ⟨rfl, c7_message_lifecycle (RunData.mk "w" [] none 0) "111.1" "222.2" true rfl⟩

/-- C8 counterexample: under a network schedule whose first attempt fails
and whose later attempts would all succeed, _slack_request surfaces the
network error after exactly one urlopen call: the error reaches the
caller on the first failure, with no retry and no backoff, contrary to
the claim. -/
theorem c8_counterexample :
    retryNet 0 = NetAttempt.netFail ∧
    retryNet 1 = NetAttempt.response true ∧
    slackRequest retryNet = (Except.error ReqError.urlError, 1) :=
  ⟨rfl, rfl, rfl⟩

/-- C8 (amended): _slack_request makes exactly one network attempt whatever
the schedule, and surfaces a URLError to the caller immediately on the
first failure; _get_all_storage_messages catches the failure instead of
surfacing it and silently returns the pages accumulated before it.
Amendment forced by the counterexample: the code has no retry loop and no
backoff anywhere on the store path. -/
theorem c8_no_retry (net : Nat → NetAttempt) (pre : List (List StorageMsg))
    (e : ReqError) (rest : List (Except ReqError (List StorageMsg))) :
    (slackRequest net).2 = 1 ∧
    (net 0 = NetAttempt.netFail →
      (slackRequest net).1 = Except.error ReqError.urlError) ∧
    getAllStorageMessages (pre.map Except.ok ++ Except.error e :: rest) =
      pre.flatten := by
  refine ⟨?_, ?_, ?_⟩
  · cases h : net 0 <;> simp [slackRequest, h]
  · intro h
    simp [slackRequest, h]
  · induction pre with
    | nil => rfl
    | cons ms pre ih => simp [getAllStorageMessages, ih]

/-- C8 witness: the amended statement instantiated at the failing-first
schedule and a one-page prefix. -/
theorem c8_witness :
    (slackRequest retryNet).2 = 1 ∧
    (retryNet 0 = NetAttempt.netFail →
      (slackRequest retryNet).1 = Except.error ReqError.urlError) ∧
    getAllStorageMessages
        ([[StorageMsg.mk true (some 1) none]].map Except.ok ++
          Except.error ReqError.urlError :: []) =
      [[StorageMsg.mk true (some 1) none]].flatten :=
  c8_no_retry retryNet [[StorageMsg.mk true (some 1) none]] ReqError.urlError []

/-- C9 counterexample: a run whose stored message_ts is "1.0" publishes
while the chat.update amend fails (the outward message was externally
deleted); the raised error reaches the handler at line 346 and the
process exits 1: no chat.postMessage fallback happens and no new outward
message is created, contrary to the claim. -/
theorem c9_counterexample :
    (RunData.mk "w" [] (some "1.0") 0).message_ts = some "1.0" ∧
    publishStep false "9.9" (RunData.mk "w" [] (some "1.0") 0) =
      UpdateOutcome.exitFailure :=
  ⟨rfl, rfl⟩

/-- C9 (amended): when message_ts is present and the chat.update amend
fails, the invocation fails through the exception handler (sys.exit(1));
no fallback creation of a new outward message happens.  Amendment forced
by the counterexample: the code never falls back to chat.postMessage on a
failed amend. -/
theorem c9_no_fallback (d : RunData) (ts fresh : String)
    (h : d.message_ts = some ts) :
    publishStep false fresh d = UpdateOutcome.exitFailure := by
  simp [publishStep, h]

/-- C9 witness: the failed-amend exit on a concrete run state. -/
theorem c9_witness :
    (RunData.mk "w" [] (some "3.3") 7).message_ts = some "3.3" ∧
    publishStep false "4.4" (RunData.mk "w" [] (some "3.3") 7) =
      UpdateOutcome.exitFailure :=
  ⟨rfl, c9_no_fallback (RunData.mk "w" [] (some "3.3") 7) "3.3" "4.4" rfl⟩

/-- C10 counterexample: a bot message older than the retention bound whose
text is not valid JSON IS put on the delete list: at lines 146-148 the
age test runs and appends to to_delete before json.loads is ever called,
so the claim that a message with unparseable text is never added to the
delete list fails. -/
theorem c10_counterexample :
    (StorageMsg.mk true (some 0) none).text = none ∧
    (StorageMsg.mk true (some 0) none).bot_id = true ∧
    (cleanupFold "w" 100 [StorageMsg.mk true (some 0) none]).to_delete = [0] :=
  ⟨rfl, rfl, by decide⟩

/-- C10 (amended): a message without bot_id is never put on the delete list
nor selected as pipeline_msg; a within-window message whose text is not
valid JSON is never put on the delete list nor selected; and every entry
of the delete list gets its own delete attempt, independent of the
outcome of the attempts for the other entries.  Amendment forced by the
counterexample: an out-of-window bot message is deleted before its text
is parsed, so the no-delete guarantee for unparseable messages only holds
within the retention window.  The Nodup hypothesis models the Slack
guarantee that message ts values are unique within a channel. -/
theorem c10_cleanup_frame (wf : String) (tenAgo : Int) (msgs : List StorageMsg)
    (hnd : (msgs.filterMap StorageMsg.tsVal).Nodup) :
    cleanupFrameSpec wf tenAgo msgs := by
  refine ⟨?_, ?_, ?_⟩
  · intro m hm t hb ht
    constructor
    · intro hmem
      rcases to_delete_source wf tenAgo msgs (CleanupState.mk none []) t hmem with
        h2 | ⟨p, hp, _⟩ | ⟨m2, hm2, hk, ht2⟩
      · cases h2
      · cases hp
      · have heq : m2 = m :=
          filterMap_nodup_inj StorageMsg.tsVal msgs hnd m2 m hm2 hm t ht2 ht
        subst heq
        rcases hk with ho | hc
        · simp [isOldMsg, hb] at ho
        · simp [isCandidateMsg, hb] at hc
    · intro p hp hts
      rcases pipeline_source wf tenAgo msgs (CleanupState.mk none []) p hp with
        h2 | ⟨m2, hm2, hc2, ht2, _⟩
      · cases h2
      · have heq : m2 = m :=
          filterMap_nodup_inj StorageMsg.tsVal msgs hnd m2 m hm2 hm t
            (by rw [ht2, hts]) ht
        subst heq
        simp [isCandidateMsg, hb] at hc2
  · intro m hm t ht hwin htx
    constructor
    · intro hmem
      rcases to_delete_source wf tenAgo msgs (CleanupState.mk none []) t hmem with
        h2 | ⟨p, hp, _⟩ | ⟨m2, hm2, hk, ht2⟩
      · cases h2
      · cases hp
      · have heq : m2 = m :=
          filterMap_nodup_inj StorageMsg.tsVal msgs hnd m2 m hm2 hm t ht2 ht
        subst heq
        rcases hk with ho | hc
        · simp [isOldMsg, ht] at ho
          exact absurd ho.2 (not_lt.mpr hwin)
        · simp [isCandidateMsg, ht, htx] at hc
    · intro p hp hts
      rcases pipeline_source wf tenAgo msgs (CleanupState.mk none []) p hp with
        h2 | ⟨m2, hm2, hc2, ht2, _⟩
      · cases h2
      · have heq : m2 = m :=
          filterMap_nodup_inj StorageMsg.tsVal msgs hnd m2 m hm2 hm t
            (by rw [ht2, hts]) ht
        subst heq
        simp [isCandidateMsg, ht, htx] at hc2
  · intro f t hmem
    exact List.mem_map_of_mem (fun ts => (ts, f ts)) hmem

/-- C10 witness: the frame property on a concrete message list holding a
non-bot message, a within-window unparseable message and a normal
candidate. -/
theorem c10_witness :
    (([ StorageMsg.mk false (some 5) (some (RecordData.mk (some "w"))),
        StorageMsg.mk true (some 150) none,
        StorageMsg.mk true (some 200) (some (RecordData.mk (some "w"))) ].filterMap
          StorageMsg.tsVal).Nodup) ∧
    cleanupFrameSpec "w" 100
      [ StorageMsg.mk false (some 5) (some (RecordData.mk (some "w"))),
        StorageMsg.mk true (some 150) none,
        StorageMsg.mk true (some 200) (some (RecordData.mk (some "w"))) ] :=
  ⟨by decide, c10_cleanup_frame "w" 100
    [ StorageMsg.mk false (some 5) (some (RecordData.mk (some "w"))),
      StorageMsg.mk true (some 150) none,
      StorageMsg.mk true (some 200) (some (RecordData.mk (some "w"))) ]
    (by decide)⟩

end CCSlack
